import Mathlib

/-!
Verification of the grasp-and-shake benchmark harness (phys-bench).

This file shallowly embeds the parts of the repository that the checked
properties are about:

* `grasp/test_output_utils.py` — filename generation and reverse parsing
  (`generate_video_path`, `parse_result_filename`);
* the shared phase-dispatch control loop of
  `grasp/grasp_shaking_test_mujoco.py` and
  `grasp/grasp_shaking_test_motrix.py` (with the threshold and check-period
  of `grasp_shaking_test_mujoco_warp.py` as parameters);
* the batch-runner error handling of `grasp/run_all_grasp_tests.py`.

Python strings are modelled as lists of characters (`Chars`), Python floats as
rationals (`ℚ`).  All definitions are computable and structurally recursive so
concrete runs evaluate inside the kernel.
-/

/-- Python strings are modelled as lists of characters. -/
abbrev Chars := List Char

/-- Python `str.split(sep)` for a one-character separator: splits on every
occurrence, keeping empty pieces (`"".split("_") == [""]`). -/
def splitChar (sep : Char) : Chars → List Chars
  | [] => [[]]
  | c :: rest =>
    let r := splitChar sep rest
    if c = sep then [] :: r
    else
      match r with
      | h :: t => (c :: h) :: t
      | [] => [[c]]

/-- Fueled worker for `replaceAll`; one unit of fuel consumes at least one
character, so `cs.length` fuel always suffices. -/
def replaceAllFuel (pat rep : Chars) : ℕ → Chars → Chars
  | 0, cs => cs
  | fuel + 1, cs =>
    if pat ≠ [] ∧ pat.isPrefixOf cs then
      rep ++ replaceAllFuel pat rep fuel (cs.drop pat.length)
    else
      match cs with
      | [] => []
      | c :: rest => c :: replaceAllFuel pat rep fuel rest

/-- Python `str.replace(pat, rep)` for a nonempty pattern: replace all
non-overlapping occurrences, scanning left to right. -/
def replaceAll (pat rep cs : Chars) : Chars := replaceAllFuel pat rep cs.length cs

/-- Python `pat in s` substring containment. -/
def containsSub (pat : Chars) : Chars → Bool
  | [] => pat.isPrefixOf []
  | c :: rest => pat.isPrefixOf (c :: rest) || containsSub pat rest

/-- ASCII model of Python `str.lower` on one character. -/
def lowerChar (c : Char) : Char :=
  if 'A' ≤ c ∧ c ≤ 'Z' then Char.ofNat (c.toNat + 32) else c

/-- ASCII model of Python `str.lower`. -/
def lowerStr (cs : Chars) : Chars := cs.map lowerChar

/-- Decimal digit character for `n < 10`. -/
def digitChar (n : ℕ) : Char := Char.ofNat (48 + n)

/-- Fueled decimal rendering of a natural number. -/
def natCharsAux : ℕ → ℕ → Chars
  | 0, _ => []
  | fuel + 1, n =>
    if n < 10 then [digitChar n]
    else natCharsAux fuel (n / 10) ++ [digitChar (n % 10)]

/-- Decimal rendering of a natural number (as `str(n)` in Python). -/
def natChars (n : ℕ) : Chars := natCharsAux (n + 1) n

/-- Holds iff `cs` is a nonempty string of decimal digits. -/
def allDigits (cs : Chars) : Bool := decide (cs ≠ []) && cs.all Char.isDigit

/-- Numeric value of a string of decimal digits. -/
def digitsVal (cs : Chars) : ℕ := cs.foldl (fun a c => a * 10 + (c.toNat - 48)) 0

/-- Exponent part of a float literal: optional sign followed by digits. -/
def parseExp (cs : Chars) : Option ℤ :=
  match cs with
  | '+' :: r => if allDigits r then some (digitsVal r : ℤ) else none
  | '-' :: r => if allDigits r then some (-(digitsVal r : ℤ)) else none
  | r => if allDigits r then some (digitsVal r : ℤ) else none

/-- Mantissa of a float literal: digits with at most one decimal point and at
least one digit overall. -/
def parseMantissa (cs : Chars) : Option ℚ :=
  match splitChar '.' cs with
  | [a] => if allDigits a then some (digitsVal a : ℚ) else none
  | [a, b] =>
    if (a.all Char.isDigit && b.all Char.isDigit) && (decide (a ≠ []) || decide (b ≠ [])) then
      some ((digitsVal a : ℚ) + (digitsVal b : ℚ) / (10 ^ b.length : ℚ))
    else none
  | _ => none

/-- Model of Python `float(s)` on finite decimal literals, optionally signed
and with an optional `e`/`E` exponent; the special forms Python also accepts
(`inf`, `nan`, surrounding whitespace, `_` digit grouping) are not modelled and
yield `none`.  The embedded code only ever parses plain decimal strings, and
the claims touching `pyFloat` only depend on success versus failure plus the
value of exact decimal literals. -/
def pyFloat (cs : Chars) : Option ℚ :=
  let (sgn, rest) :=
    match cs with
    | '+' :: r => ((1 : ℚ), r)
    | '-' :: r => ((-1 : ℚ), r)
    | r => ((1 : ℚ), r)
  match splitChar 'e' (lowerStr rest) with
  | [m] => (parseMantissa m).map (fun v => sgn * v)
  | [m, e] =>
    match parseMantissa m, parseExp e with
    | some mv, some ev => some (sgn * mv * (10 : ℚ) ^ ev)
    | _, _ => none
  | _ => none

/-- Model of `pathlib.PurePosixPath(s).name`: drop directories, empty components and
`.` components, keep the last remaining component. -/
def pathName (cs : Chars) : Chars :=
  (((splitChar '/' cs).filter (fun c => decide (c ≠ [] ∧ c ≠ ['.']))).getLast?).getD []

/-- Model of `pathlib.PurePosixPath(s).stem`: the name with its final suffix removed.
CPython computes `i = name.rfind('.')` and strips from `i` exactly when
`0 < i < len(name) - 1`. -/
def pathStem (cs : Chars) : Chars :=
  let name := pathName cs
  match name.reverse.findIdx? (· == '.') with
  | none => name
  | some j =>
    let i := name.length - 1 - j
    if 0 < i ∧ i < name.length - 1 then name.take i else name

/-- Python `str(b).lower()` for a bool. -/
def boolLower (b : Bool) : Chars := if b then "true".toList else "false".toList

/-- The task tag `"shake" if shake else "slip"` of `generate_video_path`. -/
def pyTask (shake : Bool) : Chars := if shake then "shake".toList else "slip".toList

/-- Python f-string `{dt:.3f}` for a nonnegative rational that is an integer
multiple of 1/1000 (the `--dt` flags 0.002 and 0.01 are); the round-to-even
behaviour on other values is not modelled. -/
def fmt3 (dt : ℚ) : Chars :=
  let q : ℚ := dt * 1000
  let m : ℕ := (q.num / (q.den : ℤ)).toNat
  natChars (m / 1000) ++ '.' :: (List.replicate (3 - (natChars (m % 1000)).length) '0' ++ natChars (m % 1000))

/-- Embeds `generate_video_path` of `grasp/test_output_utils.py`: the video
filename `{engine}_grasp_{task}_{object}_{mjx_str}_{dt_str}.mp4` joined under
`output_dir` (`str(output_dir / filename)` for a relative directory is
`output_dir ++ "/" ++ filename`). -/
def generate_video_path (engine object_name : Chars) (shake mjx : Bool) (dt : ℚ)
    (output_dir : Chars) : Chars :=
  let task := pyTask shake
  let mjx_str := "mjx".toList ++ boolLower mjx
  let dt_str := replaceAll ['.'] ['_'] ("dt".toList ++ fmt3 dt)
  let filename := engine ++ "_grasp_".toList ++ task ++ "_".toList ++ object_name ++
    "_".toList ++ mjx_str ++ "_".toList ++ dt_str ++ ".mp4".toList
  output_dir ++ '/' :: filename

/-- The dictionary returned by `parse_result_filename`: exactly the keys
`engine`, `task`, `object`, `mjx`, `dt`. -/
structure ParsedResult where
  engine : Chars
  task : Chars
  object : Chars
  mjx : Bool
  dt : ℚ
deriving DecidableEq

/-- Embeds `parse_result_filename` of `grasp/test_output_utils.py`.  The
`try` block can only raise through `float(...)` (a `ValueError`; the indexing
cannot fail once `len(parts) >= 8`), so a failed `pyFloat` falls through to
the legacy pattern, exactly as the `except (ValueError, IndexError): pass`
does. -/
def parse_result_filename (filename : Chars) : Option ParsedResult :=
  let stem := pathStem filename
  let parts := splitChar '_' stem
  let fallback : Option ParsedResult :=
    if 4 ≤ parts.length ∧ parts.get? 1 = some "grasp".toList then
      some ⟨parts.getD 0 [], parts.getD 2 [], parts.getD 3 [], false, 0.002⟩
    else none
  if 8 ≤ parts.length ∧ parts.get? 1 = some "grasp".toList then
    let mjx_val : Bool := decide (replaceAll "mjx".toList [] (parts.getD 5 []) = "true".toList)
    match pyFloat (replaceAll ['_'] ['.'] (replaceAll "dt".toList [] (parts.getD 6 []))) with
    | some d => some ⟨parts.getD 0 [], parts.getD 2 [], parts.getD 3 [], mjx_val, d⟩
    | none => fallback
  else fallback

/-! ## The grasp-and-shake control loop

Shared phase dispatcher of `grasp_shaking_test_mujoco.py` and
`grasp_shaking_test_motrix.py` (their per-tick control writes are identical).
The failure threshold (`0.04` in mujoco, `0.03` in motrix and genesis, `0.04`
in mujoco-warp) and the check period (`every tick` in mujoco/motrix/genesis,
`step_cnt % 100 == 0` in mujoco-warp) are parameters `thr` and `gate`.
The Gaussian noise draw of a tick is abstracted as an arbitrary per-tick
vector `noise`, and the object z-position read in the verify window as an
arbitrary per-tick value `objZ`. -/

/-- Linear interpolation `lerp(a, b, t) = a + t * (b - a)`, as defined in every test script. -/
def lerp (a b t : ℚ) : ℚ := a + t * (b - a)

/-- The pose `init_qpos` — 7 arm joint angles plus 2 gripper positions. -/
def init_qpos : Fin 9 → ℚ := ![0, 0, 0, -1.5708, 0, 1.5708, -0.7853, 0.04, 0.04]

/-- The pose `grasp_qpos`. -/
def grasp_qpos : Fin 9 → ℚ :=
  ![-1.0104, 1.5623, 1.3601, -1.6840, -1.5863, 1.7810, 1.4598, 0.04, 0.04]

/-- The pose `lift_qpos`. -/
def lift_qpos : Fin 9 → ℚ :=
  ![-1.0426, 1.4028, 1.5634, -1.7114, -1.4055, 1.6015, 1.4510, 0, 0]

/-- The arm part `q[:7]` of a 9-dimensional pose. -/
def armOf (q : Fin 9 → ℚ) : Fin 7 → ℚ := fun i => q (Fin.castLE (by norm_num) i)

/-- The control state the loop writes into (`data.ctrl[:7]` and
`data.ctrl[7]` in mujoco; `actuator_ctrls[:7]` and `actuator8` in motrix). -/
structure CtrlState where
  arm : Fin 7 → ℚ
  gripper : ℚ

instance : DecidableEq CtrlState := fun a b =>
  decidable_of_iff (a.arm = b.arm ∧ a.gripper = b.gripper)
    (by cases a; cases b; simp)

/-- Outcome of one loop iteration: continue, detect a drop (`break`/failure
path, carrying `drop_time = elapsed_time`), or reach the success branch. -/
inductive TickOut where
  | cont (s : CtrlState)
  | failed (dropTime : ℚ) (s : CtrlState)
  | passed (s : CtrlState)
deriving DecidableEq

/-- The control state as left by the iteration. -/
def TickOut.state : TickOut → CtrlState
  | .cont s => s
  | .failed _ s => s
  | .passed s => s

/-- Where the check runs every tick (mujoco, motrix, genesis). -/
def everyTick : ℕ → Bool := fun _ => true

/-- The mujoco-warp check period: `step_cnt % 100 == 0`. -/
def every100 : ℕ → Bool := fun n => n % 100 == 0

/-- One iteration of the phase-dispatch loop at step counter `n`
(`elapsed_time = step_cnt * dt`), embedding the `if/elif` chain of
`grasp_shaking_test_mujoco.py` lines 77–103 (= `grasp_shaking_test_motrix.py`
lines 127–181 up to the artifact writes, handled in `runFrom`). -/
def tick (shake : Bool) (gate : ℕ → Bool) (thr dt : ℚ) (noise : ℕ → Fin 7 → ℚ)
    (objZ : ℕ → ℚ) (n : ℕ) (s : CtrlState) : TickOut :=
  let t : ℚ := (n : ℚ) * dt
  if 0 ≤ t ∧ t < 1 then
    .cont { s with arm := fun i => lerp (armOf init_qpos i) (armOf lift_qpos i) t }
  else if 1 ≤ t ∧ t < 2 then
    .cont { s with arm := fun i => lerp (armOf lift_qpos i) (armOf grasp_qpos i) (t - 1) }
  else if 2 ≤ t ∧ t < 3 then
    .cont { s with gripper := lerp 0.04 0 (t - 2) }
  else if 3 ≤ t ∧ t < 4 then
    .cont { s with arm := fun i => lerp (armOf grasp_qpos i) (armOf lift_qpos i) (t - 3) }
  else if 4 ≤ t ∧ t < 20 then
    let s' := if shake = true ∧ n % 2 = 0 then
        { s with arm := fun i => armOf lift_qpos i + noise n i }
      else s
    if gate n = true ∧ objZ n < thr then .failed t s' else .cont s'
  else if 20 ≤ t then .passed s
  else .cont s

/-- A terminal run status. -/
inductive Status where
  | success
  | failure
deriving DecidableEq

/-- The externally visible actions of the motrix terminal paths:
`save_video`, `save_test_result(status, drop_time)` and `exit(code)`. -/
inductive Event where
  | saveVideo
  | saveResult (status : Status) (dropTime : Option ℚ)
  | exitProc (code : ℕ)
deriving DecidableEq

/-- A finished run: status, drop time and the ordered terminal actions. -/
structure RunResult where
  status : Status
  dropTime : Option ℚ
  events : List Event
deriving DecidableEq

/-- Terminal actions of `grasp_shaking_test_motrix.py`: on both the failure
path (lines 150–164) and the success path (lines 167–181), when recording the
video is saved, then the result record, and then `exit(0)` runs. -/
def terminalEvents (record : Bool) (st : Status) (d : Option ℚ) : List Event :=
  (if record then [Event.saveVideo, Event.saveResult st d] else []) ++ [Event.exitProc 0]

/-- The loop from step counter `n` on, with explicit fuel.  Fuel only bounds
the modelled iterations; `fuelFor` below always suffices for `dt > 0`. -/
def runFrom (shake record : Bool) (gate : ℕ → Bool) (thr dt : ℚ)
    (noise : ℕ → Fin 7 → ℚ) (objZ : ℕ → ℚ) : ℕ → ℕ → CtrlState → Option RunResult
  | 0, _, _ => none
  | fuel + 1, n, s =>
    match tick shake gate thr dt noise objZ n s with
    | .cont s' => runFrom shake record gate thr dt noise objZ fuel (n + 1) s'
    | .failed t _ => some ⟨.failure, some t, terminalEvents record .failure (some t)⟩
    | .passed _ => some ⟨.success, none, terminalEvents record .success none⟩

/-- Control state before the loop: arm at `init_qpos[:7]`, gripper at
`init_qpos[7]` (both scripts write these before stepping). -/
def initCtrl : CtrlState := ⟨armOf init_qpos, init_qpos 7⟩

/-- Enough iterations to reach `elapsed_time ≥ 20` whenever `dt > 0`:
`(20 * dt.den) * dt = 20 * dt.num ≥ 20`. -/
def fuelFor (dt : ℚ) : ℕ := 20 * dt.den + 1

/-- The whole run, starting at step counter 1 (`step_cnt += 1` precedes the
phase dispatch).  The motrix script executes these ticks in inner batches of
`int((1/60)/dt)` per render frame; for `dt ≤ 1/60` (the flags used are 0.002
and 0.01) that flattens to exactly this sequence, and the render/capture code
between batches touches neither the controls nor termination. -/
def run (shake record : Bool) (gate : ℕ → Bool) (thr dt : ℚ)
    (noise : ℕ → Fin 7 → ℚ) (objZ : ℕ → ℚ) : Option RunResult :=
  runFrom shake record gate thr dt noise objZ (fuelFor dt) 1 initCtrl

/-- The control state after the first `n` iterations (iteration `k` runs at
elapsed time `k * dt`), tracking the control vector independently of early
exit. -/
def ctrlAfter (shake : Bool) (gate : ℕ → Bool) (thr dt : ℚ)
    (noise : ℕ → Fin 7 → ℚ) (objZ : ℕ → ℚ) : ℕ → CtrlState
  | 0 => initCtrl
  | n + 1 => (tick shake gate thr dt noise objZ (n + 1)
      (ctrlAfter shake gate thr dt noise objZ n)).state

/-- Step `n` takes the failure branch: elapsed time in `[4, 20)`, the check
gate fires, and the object z-position is strictly below the threshold. -/
def failsAt (gate : ℕ → Bool) (thr dt : ℚ) (objZ : ℕ → ℚ) (n : ℕ) : Bool :=
  decide (4 ≤ (n : ℚ) * dt) && decide ((n : ℚ) * dt < 20) && gate n &&
    decide (objZ n < thr)

/-- Step `n` reaches the success branch: elapsed time at least 20. -/
def passesAt (dt : ℚ) (n : ℕ) : Bool := decide (20 ≤ (n : ℚ) * dt)

/-! ## Phases -/

/-- The six phases of the task. -/
inductive Phase where
  | initToLift
  | liftToGrasp
  | closeGripper
  | liftObject
  | shakeAndVerify
  | done
deriving DecidableEq

/-- The phase the `if/elif` chain of the dispatcher selects at elapsed time
`t` (`none` for the unreachable `t < 0`, where no branch fires). -/
def phaseOf (t : ℚ) : Option Phase :=
  if 0 ≤ t ∧ t < 1 then some .initToLift
  else if 1 ≤ t ∧ t < 2 then some .liftToGrasp
  else if 2 ≤ t ∧ t < 3 then some .closeGripper
  else if 3 ≤ t ∧ t < 4 then some .liftObject
  else if 4 ≤ t ∧ t < 20 then some .shakeAndVerify
  else if 20 ≤ t then some .done
  else none

/-- The half-open time window of each phase, stated independently of the
dispatcher. -/
def inWindow : Phase → ℚ → Prop
  | .initToLift, t => 0 ≤ t ∧ t < 1
  | .liftToGrasp, t => 1 ≤ t ∧ t < 2
  | .closeGripper, t => 2 ≤ t ∧ t < 3
  | .liftObject, t => 3 ≤ t ∧ t < 4
  | .shakeAndVerify, t => 4 ≤ t ∧ t < 20
  | .done, t => 20 ≤ t

instance (p : Phase) (t : ℚ) : Decidable (inWindow p t) :=
  match p with
  | .initToLift => inferInstanceAs (Decidable (0 ≤ t ∧ t < 1))
  | .liftToGrasp => inferInstanceAs (Decidable (1 ≤ t ∧ t < 2))
  | .closeGripper => inferInstanceAs (Decidable (2 ≤ t ∧ t < 3))
  | .liftObject => inferInstanceAs (Decidable (3 ≤ t ∧ t < 4))
  | .shakeAndVerify => inferInstanceAs (Decidable (4 ≤ t ∧ t < 20))
  | .done => inferInstanceAs (Decidable (20 ≤ t))

/-! ## The batch runner (`run_all_grasp_tests.py`) -/

/-- What `subprocess.run(cmd, capture_output=True, text=True, timeout=60)`
can come back with, as seen by `run_single_test`: a completed process with
exit code and captured streams, a `subprocess.TimeoutExpired` carrying the
partial output (`None` streams modelled as empty), or any other exception
rendered to its message text. -/
inductive SubprocOutcome where
  | completed (returncode : ℤ) (stdout stderr : Chars)
  | timeoutExpired (stdout stderr : Chars)
  | exc (message : Chars)

/-- The per-test timeout passed to `subprocess.run`, in seconds. -/
def testTimeoutSeconds : ℕ := 60

/-- Embeds `run_single_test` of `run_all_grasp_tests.py` (lines 170–193):
the `try/except` around the subprocess call, returning `(success, output)`.
The `TimeoutExpired` handler appends the `[TIMEOUT]` marker to the partial
output; the catch-all handler renders the exception text; neither re-raises
and neither retries.  (The script-existence pre-check and the command
construction do not affect these claims and are omitted.) -/
def run_single_test (o : SubprocOutcome) : Bool × Chars :=
  match o with
  | .completed rc out err =>
    let output := out ++ err
    (containsSub "passed".toList (lowerStr output) ||
      (rc == 0 && !containsSub "failed".toList (lowerStr output)), output)
  | .timeoutExpired out err =>
    (false, out ++ err ++ "\n[TIMEOUT] Test timed out after 60 seconds".toList)
  | .exc msg => (false, "Error running test: ".toList ++ msg)

/-- The status `run_all_tests` records and prints for one test (lines
227–232): `TIMEOUT` when the output carries the timeout marker, else
`PASSED`/`FAILED` by the success flag. -/
def runStatus (success : Bool) (output : Chars) : Chars :=
  if containsSub "TIMEOUT".toList output then "TIMEOUT".toList
  else if success then "PASSED".toList else "FAILED".toList

/-- One (engine, object, dt) combination of the batch run. -/
structure TestConfig where
  engine : Chars
  object : Chars
  dt : ℚ

/-- What `run_all_tests` stores for one test. -/
structure TestRecord where
  success : Bool
  output : Chars
  status : Chars

/-- The triple-nested loop order of `run_all_tests`. -/
def allConfigs (engines objects : List Chars) (dts : List ℚ) : List TestConfig :=
  engines.flatMap fun e => objects.flatMap fun o => dts.map fun dt => ⟨e, o, dt⟩

/-- Embeds the collection loop of `run_all_tests` (lines 217–248): each
configuration invokes `run_single_test` exactly once (no retry) and records
its result together with the printed status. -/
def run_all_tests (engines objects : List Chars) (dts : List ℚ)
    (invoke : TestConfig → SubprocOutcome) : List (TestConfig × TestRecord) :=
  (allConfigs engines objects dts).map fun c =>
    let r := run_single_test (invoke c)
    (c, ⟨r.1, r.2, runStatus r.1 r.2⟩)

/-! ## Helper lemmas about the dispatcher -/

lemma tick_phase1 {shake : Bool} {gate : ℕ → Bool} {thr dt : ℚ} {noise : ℕ → Fin 7 → ℚ}
    {objZ : ℕ → ℚ} {n : ℕ} (h0 : 0 ≤ (n : ℚ) * dt) (h1 : (n : ℚ) * dt < 1)
    (s : CtrlState) :
    tick shake gate thr dt noise objZ n s =
      .cont { s with arm := fun i => lerp (armOf init_qpos i) (armOf lift_qpos i) ((n : ℚ) * dt) } := by
  simp only [tick]
  rw [if_pos ⟨h0, h1⟩]

lemma tick_window {shake : Bool} {gate : ℕ → Bool} {thr dt : ℚ} {noise : ℕ → Fin 7 → ℚ}
    {objZ : ℕ → ℚ} {n : ℕ} (h4 : 4 ≤ (n : ℚ) * dt) (h20 : (n : ℚ) * dt < 20)
    (s : CtrlState) :
    tick shake gate thr dt noise objZ n s =
      (if gate n = true ∧ objZ n < thr then
        TickOut.failed ((n : ℚ) * dt)
          (if shake = true ∧ n % 2 = 0 then
            { s with arm := fun i => armOf lift_qpos i + noise n i } else s)
      else
        TickOut.cont
          (if shake = true ∧ n % 2 = 0 then
            { s with arm := fun i => armOf lift_qpos i + noise n i } else s)) := by
  have n1 : ¬((0:ℚ) ≤ (n : ℚ) * dt ∧ (n : ℚ) * dt < 1) := fun h => by linarith [h.2]
  have n2 : ¬((1:ℚ) ≤ (n : ℚ) * dt ∧ (n : ℚ) * dt < 2) := fun h => by linarith [h.2]
  have n3 : ¬((2:ℚ) ≤ (n : ℚ) * dt ∧ (n : ℚ) * dt < 3) := fun h => by linarith [h.2]
  have n4 : ¬((3:ℚ) ≤ (n : ℚ) * dt ∧ (n : ℚ) * dt < 4) := fun h => by linarith [h.2]
  simp only [tick]
  rw [if_neg n1, if_neg n2, if_neg n3, if_neg n4, if_pos ⟨h4, h20⟩]

lemma tick_pass {shake : Bool} {gate : ℕ → Bool} {thr dt : ℚ} {noise : ℕ → Fin 7 → ℚ}
    {objZ : ℕ → ℚ} {n : ℕ} (h : 20 ≤ (n : ℚ) * dt) (s : CtrlState) :
    tick shake gate thr dt noise objZ n s = .passed s := by
  have n1 : ¬((0:ℚ) ≤ (n : ℚ) * dt ∧ (n : ℚ) * dt < 1) := fun hh => by linarith [hh.2]
  have n2 : ¬((1:ℚ) ≤ (n : ℚ) * dt ∧ (n : ℚ) * dt < 2) := fun hh => by linarith [hh.2]
  have n3 : ¬((2:ℚ) ≤ (n : ℚ) * dt ∧ (n : ℚ) * dt < 3) := fun hh => by linarith [hh.2]
  have n4 : ¬((3:ℚ) ≤ (n : ℚ) * dt ∧ (n : ℚ) * dt < 4) := fun hh => by linarith [hh.2]
  have n5 : ¬((4:ℚ) ≤ (n : ℚ) * dt ∧ (n : ℚ) * dt < 20) := fun hh => by linarith [hh.2]
  simp only [tick]
  rw [if_neg n1, if_neg n2, if_neg n3, if_neg n4, if_neg n5, if_pos h]

lemma tick_cont_of_not_terminal (shake : Bool) (noise : ℕ → Fin 7 → ℚ)
    {gate : ℕ → Bool} {thr dt : ℚ} {objZ : ℕ → ℚ} {n : ℕ}
    (hf : failsAt gate thr dt objZ n = false) (hp : passesAt dt n = false)
    (s : CtrlState) :
    ∃ s', tick shake gate thr dt noise objZ n s = .cont s' := by
  have hp2 : ¬ (20:ℚ) ≤ (n : ℚ) * dt := by
    simpa [passesAt] using hp
  simp only [tick]
  split_ifs <;> try exact ⟨_, rfl⟩
  exfalso
  simp_all [failsAt]

/-- Unfolding `failsAt` into its four conditions. -/
lemma failsAt_eq_true {gate : ℕ → Bool} {thr dt : ℚ} {objZ : ℕ → ℚ} {n : ℕ} :
    failsAt gate thr dt objZ n = true ↔
      4 ≤ (n : ℚ) * dt ∧ (n : ℚ) * dt < 20 ∧ gate n = true ∧ objZ n < thr := by
  simp [failsAt, and_assoc]

/-- If the first terminal step at or after `n` is a failing check at step `m`,
the loop from `n` returns the failure result with `drop_time = m * dt`,
whatever the control state. -/
lemma runFrom_fail_eq {shake record : Bool} {gate : ℕ → Bool} {thr dt : ℚ}
    {noise : ℕ → Fin 7 → ℚ} {objZ : ℕ → ℚ} {m : ℕ} :
    ∀ (fuel n : ℕ) (_ : n ≤ m) (_ : m < n + fuel)
      (_ : ∀ k, n ≤ k → k < m → failsAt gate thr dt objZ k = false ∧ passesAt dt k = false)
      (_ : failsAt gate thr dt objZ m = true) (s : CtrlState),
      runFrom shake record gate thr dt noise objZ fuel n s =
        some ⟨.failure, some ((m : ℚ) * dt),
          terminalEvents record .failure (some ((m : ℚ) * dt))⟩ := by
  intro fuel
  induction fuel with
  | zero => intro n hnm hfuel _ _ _; omega
  | succ fuel ih =>
    intro n hnm hfuel hbefore hm s
    rcases eq_or_lt_of_le hnm with rfl | hlt
    · obtain ⟨h4, h20, hg, hz⟩ := failsAt_eq_true.mp hm
      rw [runFrom, tick_window h4 h20, if_pos ⟨hg, hz⟩]
    · obtain ⟨s', hs'⟩ := tick_cont_of_not_terminal shake noise
        (hbefore n le_rfl hlt).1 (hbefore n le_rfl hlt).2 s
      rw [runFrom, hs']
      exact ih (n + 1) hlt (by omega) (fun k hk1 hk2 => hbefore k (by omega) hk2) hm s'

/-- If no check fails before the success branch is reached at step `m`, the
loop from `n` returns the success result. -/
lemma runFrom_pass_eq {shake record : Bool} {gate : ℕ → Bool} {thr dt : ℚ}
    {noise : ℕ → Fin 7 → ℚ} {objZ : ℕ → ℚ} {m : ℕ} :
    ∀ (fuel n : ℕ) (_ : n ≤ m) (_ : m < n + fuel)
      (_ : ∀ k, n ≤ k → k < m → failsAt gate thr dt objZ k = false ∧ passesAt dt k = false)
      (_ : 20 ≤ (m : ℚ) * dt) (s : CtrlState),
      runFrom shake record gate thr dt noise objZ fuel n s =
        some ⟨.success, none, terminalEvents record .success none⟩ := by
  intro fuel
  induction fuel with
  | zero => intro n hnm hfuel _ _ _; omega
  | succ fuel ih =>
    intro n hnm hfuel hbefore hm s
    rcases eq_or_lt_of_le hnm with rfl | hlt
    · rw [runFrom, tick_pass hm]
    · obtain ⟨s', hs'⟩ := tick_cont_of_not_terminal shake noise
        (hbefore n le_rfl hlt).1 (hbefore n le_rfl hlt).2 s
      rw [runFrom, hs']
      exact ih (n + 1) hlt (by omega) (fun k hk1 hk2 => hbefore k (by omega) hk2) hm s'

/-- The denominator clears: `(dt.den : ℚ) * dt = dt.num`. -/
lemma den_mul_self (dt : ℚ) : (dt.den : ℚ) * dt = (dt.num : ℚ) := by
  have hden : (dt.den : ℚ) ≠ 0 := by exact_mod_cast dt.den_ne_zero
  nth_rewrite 2 [← Rat.num_div_den dt]
  rw [mul_comm, div_mul_cancel₀ _ hden]

/-- Any step whose elapsed time is still below 20 is within the fuel bound. -/
lemma lt_fuelFor {dt : ℚ} {m : ℕ} (hdt : 0 < dt) (h : (m : ℚ) * dt < 20) :
    m < fuelFor dt := by
  have hnum : 1 ≤ dt.num := by
    have := Rat.num_pos.mpr hdt
    omega
  by_contra hle
  push_neg at hle
  have h1 : 20 * dt.den ≤ m := by
    have : fuelFor dt = 20 * dt.den + 1 := rfl
    omega
  have h2 : ((20 * dt.den : ℕ) : ℚ) * dt ≤ (m : ℚ) * dt := by
    have : ((20 * dt.den : ℕ) : ℚ) ≤ (m : ℚ) := by exact_mod_cast h1
    exact mul_le_mul_of_nonneg_right this hdt.le
  have h3 : ((20 * dt.den : ℕ) : ℚ) * dt = 20 * (dt.num : ℚ) := by
    push_cast
    rw [mul_assoc, den_mul_self]
  have h4 : (20 : ℚ) ≤ 20 * (dt.num : ℚ) := by
    have : (1 : ℚ) ≤ (dt.num : ℚ) := by exact_mod_cast hnum
    linarith
  linarith [h2, h3 ▸ h2]

/-- Packaging of one range case of the partition theorem. -/
lemma partition_aux (p₀ : Phase) {t : ℚ} (hphase : phaseOf t = some p₀)
    (w₀ : inWindow p₀ t) (uniq : ∀ q, inWindow q t → q = p₀) :
    (∃! p, inWindow p t) ∧ (∀ p, phaseOf t = some p ↔ inWindow p t) := by
  refine ⟨⟨p₀, w₀, uniq⟩, fun p => ?_⟩
  rw [hphase]
  constructor
  · intro h
    injection h with h
    subst h
    exact w₀
  · intro hw
    rw [uniq p hw]

/-- C3: for every elapsed simulated time `t ≥ 0`, exactly one of the six
half-open phase windows `[0,1)`, `[1,2)`, `[2,3)`, `[3,4)`, `[4,20)`,
`[20,∞)` contains `t`, and the dispatcher's `if/elif` chain selects exactly
that phase: no gaps, no overlaps. -/
theorem phase_windows_partition (t : ℚ) (ht : 0 ≤ t) :
    (∃! p, inWindow p t) ∧ (∀ p, phaseOf t = some p ↔ inWindow p t) := by
  rcases lt_or_le t 1 with h1 | h1
  · refine partition_aux Phase.initToLift ?_ ⟨ht, h1⟩ ?_
    · unfold phaseOf
      rw [if_pos ⟨ht, h1⟩]
    · intro q hq
      cases q <;> simp only [inWindow] at hq <;>
        first
          | rfl
          | (exfalso
             first
               | linarith [hq.1, hq.2]
               | linarith [hq])
  rcases lt_or_le t 2 with h2 | h2
  · refine partition_aux Phase.liftToGrasp ?_ ⟨h1, h2⟩ ?_
    · unfold phaseOf
      rw [if_neg (fun hh => by linarith [hh.2]), if_pos ⟨h1, h2⟩]
    · intro q hq
      cases q <;> simp only [inWindow] at hq <;>
        first
          | rfl
          | (exfalso
             first
               | linarith [hq.1, hq.2]
               | linarith [hq])
  rcases lt_or_le t 3 with h3 | h3
  · refine partition_aux Phase.closeGripper ?_ ⟨h2, h3⟩ ?_
    · unfold phaseOf
      rw [if_neg (fun hh => by linarith [hh.2]), if_neg (fun hh => by linarith [hh.2]),
        if_pos ⟨h2, h3⟩]
    · intro q hq
      cases q <;> simp only [inWindow] at hq <;>
        first
          | rfl
          | (exfalso
             first
               | linarith [hq.1, hq.2]
               | linarith [hq])
  rcases lt_or_le t 4 with h4 | h4
  · refine partition_aux Phase.liftObject ?_ ⟨h3, h4⟩ ?_
    · unfold phaseOf
      rw [if_neg (fun hh => by linarith [hh.2]), if_neg (fun hh => by linarith [hh.2]),
        if_neg (fun hh => by linarith [hh.2]), if_pos ⟨h3, h4⟩]
    · intro q hq
      cases q <;> simp only [inWindow] at hq <;>
        first
          | rfl
          | (exfalso
             first
               | linarith [hq.1, hq.2]
               | linarith [hq])
  rcases lt_or_le t 20 with h20 | h20
  · refine partition_aux Phase.shakeAndVerify ?_ ⟨h4, h20⟩ ?_
    · unfold phaseOf
      rw [if_neg (fun hh => by linarith [hh.2]), if_neg (fun hh => by linarith [hh.2]),
        if_neg (fun hh => by linarith [hh.2]), if_neg (fun hh => by linarith [hh.2]),
        if_pos ⟨h4, h20⟩]
    · intro q hq
      cases q <;> simp only [inWindow] at hq <;>
        first
          | rfl
          | (exfalso
             first
               | linarith [hq.1, hq.2]
               | linarith [hq])
  · refine partition_aux Phase.done ?_ h20 ?_
    · unfold phaseOf
      rw [if_neg (fun hh => by linarith [hh.2]), if_neg (fun hh => by linarith [hh.2]),
        if_neg (fun hh => by linarith [hh.2]), if_neg (fun hh => by linarith [hh.2]),
        if_neg (fun hh => by linarith [hh.2]), if_pos h20]
    · intro q hq
      cases q <;> simp only [inWindow] at hq <;>
        first
          | rfl
          | (exfalso
             first
               | linarith [hq.1, hq.2]
               | linarith [hq])

/-- Witness for C3 at `t = 5`. -/
theorem phase_windows_partition_witness :
    (0 : ℚ) ≤ 5 ∧
      ((∃! p, inWindow p (5 : ℚ)) ∧ (∀ p, phaseOf 5 = some p ↔ inWindow p (5 : ℚ))) :=
  ⟨by norm_num, phase_windows_partition 5 (by norm_num)⟩

/-- C6: for every elapsed time `t = n * dt` in `[0, 1)`, the arm control
target computed by the INIT_TO_LIFT branch is exactly
`lerp(init_qpos[:7], lift_qpos[:7], t)` component-wise; at `t = 0` it equals
the init pose, and its distance to the lift pose is `(1 - t)` times the
init-to-lift distance, so it tends to the lift pose as `t → 1⁻`. -/
theorem init_to_lift_target (shake : Bool) (gate : ℕ → Bool) (thr dt : ℚ)
    (noise : ℕ → Fin 7 → ℚ) (objZ : ℕ → ℚ) (n : ℕ) (s : CtrlState)
    (h0 : 0 ≤ (n : ℚ) * dt) (h1 : (n : ℚ) * dt < 1) :
    ((tick shake gate thr dt noise objZ n s).state.arm
        = fun i => lerp (armOf init_qpos i) (armOf lift_qpos i) ((n : ℚ) * dt))
    ∧ ((n : ℚ) * dt = 0 →
        (tick shake gate thr dt noise objZ n s).state.arm = armOf init_qpos)
    ∧ (∀ i, |(tick shake gate thr dt noise objZ n s).state.arm i - armOf lift_qpos i|
          = (1 - (n : ℚ) * dt) * |armOf lift_qpos i - armOf init_qpos i|) := by
  have harm : (tick shake gate thr dt noise objZ n s).state.arm
      = fun i => lerp (armOf init_qpos i) (armOf lift_qpos i) ((n : ℚ) * dt) := by
    rw [tick_phase1 h0 h1]
    rfl
  refine ⟨harm, ?_, ?_⟩
  · intro hz
    rw [harm]
    funext i
    simp [lerp, hz]
  · intro i
    rw [harm]
    simp only [lerp]
    have hrw : armOf init_qpos i + (n : ℚ) * dt * (armOf lift_qpos i - armOf init_qpos i)
          - armOf lift_qpos i
        = -((1 - (n : ℚ) * dt) * (armOf lift_qpos i - armOf init_qpos i)) := by
      ring
    rw [hrw, abs_neg, abs_mul, abs_of_nonneg (by linarith : (0:ℚ) ≤ 1 - (n : ℚ) * dt)]

/-- Witness for C6 at `n = 1`, `dt = 1/2`. -/
theorem init_to_lift_target_witness :
    (0 ≤ ((1 : ℕ) : ℚ) * (1/2) ∧ ((1 : ℕ) : ℚ) * (1/2) < 1)
    ∧ ((tick false everyTick 0.04 (1/2) (fun _ _ => 0) (fun _ => 1) 1 initCtrl).state.arm
        = fun i => lerp (armOf init_qpos i) (armOf lift_qpos i) (((1 : ℕ) : ℚ) * (1/2))) :=
  ⟨⟨by norm_num, by norm_num⟩,
    (init_to_lift_target false everyTick 0.04 (1/2) (fun _ _ => 0) (fun _ => 1) 1 initCtrl
      (by norm_num) (by norm_num)).1⟩

/-- C7: with shake enabled, during the SHAKE_AND_VERIFY window the noise
perturbation (added to the lift pose per arm joint) is written exactly on the
ticks with even step counter (`step_cnt % 2 == 0`): on even window ticks the
arm target becomes `lift_qpos[:7] + noise`, on odd window ticks the control
state is untouched, and outside the window the tick does not depend on the
noise at all. -/
theorem shake_noise_on_even_ticks (gate : ℕ → Bool) (thr dt : ℚ)
    (noise : ℕ → Fin 7 → ℚ) (objZ : ℕ → ℚ) :
    (∀ (n : ℕ) (s : CtrlState), 4 ≤ (n : ℚ) * dt → (n : ℚ) * dt < 20 →
      (n % 2 = 0 → (tick true gate thr dt noise objZ n s).state.arm
          = fun i => armOf lift_qpos i + noise n i)
      ∧ (n % 2 ≠ 0 → (tick true gate thr dt noise objZ n s).state = s))
    ∧ (∀ (n : ℕ) (s : CtrlState) (noiseA noiseB : ℕ → Fin 7 → ℚ),
        ¬(4 ≤ (n : ℚ) * dt ∧ (n : ℚ) * dt < 20) →
        tick true gate thr dt noiseA objZ n s = tick true gate thr dt noiseB objZ n s) := by
  constructor
  · intro n s h4 h20
    constructor
    · intro heven
      rw [tick_window h4 h20]
      split_ifs <;> first | rfl | simp_all
    · intro hodd
      rw [tick_window h4 h20]
      split_ifs <;> first | rfl | simp_all [TickOut.state]
  · intro n s noiseA noiseB hout
    simp only [tick]
    split_ifs <;> first | rfl | exact absurd (by constructor <;> assumption) hout

/-- Witness for C7 at `n = 4`, `dt = 1` (an even window tick). -/
theorem shake_noise_on_even_ticks_witness :
    ((4 : ℚ) ≤ ((4 : ℕ) : ℚ) * 1 ∧ ((4 : ℕ) : ℚ) * 1 < 20 ∧ (4 : ℕ) % 2 = 0)
    ∧ ((tick true everyTick 0.04 1 (fun _ _ => 1) (fun _ => 1) 4 initCtrl).state.arm
        = fun i => armOf lift_qpos i + (fun _ _ => (1:ℚ)) 4 i) :=
  ⟨⟨by norm_num, by norm_num, by norm_num⟩,
    ((shake_noise_on_even_ticks everyTick 0.04 1 (fun _ _ => 1) (fun _ => 1)).1 4 initCtrl
      (by norm_num) (by norm_num)).1 (by norm_num)⟩

/-- With shake disabled, a tick inside the SHAKE_AND_VERIFY window leaves the
control state untouched (the only write in that branch is guarded by the
shake flag). -/
lemma tick_window_state_noshake {gate : ℕ → Bool} {thr dt : ℚ}
    {noise : ℕ → Fin 7 → ℚ} {objZ : ℕ → ℚ} {n : ℕ}
    (h4 : 4 ≤ (n : ℚ) * dt) (h20 : (n : ℚ) * dt < 20) (s : CtrlState) :
    (tick false gate thr dt noise objZ n s).state = s := by
  rw [tick_window h4 h20]
  split_ifs <;> simp_all [TickOut.state]

/-- C4 (amended): with shake disabled, no write to the arm control occurs
during the SHAKE_AND_VERIFY window — the whole control state, and in
particular the arm target, is constant across every stretch of window ticks,
frozen at whatever value the last pre-window write left (the final
LIFT_OBJECT interpolation step), a value that differs from `lift_qpos[:7]`
as the counterexample below shows. -/
theorem noshake_window_arm_constant (gate : ℕ → Bool) (thr dt : ℚ)
    (noise : ℕ → Fin 7 → ℚ) (objZ : ℕ → ℚ) (m n : ℕ)
    (hdt : 0 ≤ dt) (hmn : m ≤ n)
    (h4 : 4 ≤ (m : ℚ) * dt) (h20 : (n : ℚ) * dt < 20) :
    ctrlAfter false gate thr dt noise objZ n = ctrlAfter false gate thr dt noise objZ m := by
  induction n, hmn using Nat.le_induction with
  | base => rfl
  | succ n hmn ih =>
    have hcast : ((n + 1 : ℕ) : ℚ) = (n : ℚ) + 1 := by push_cast; ring
    have hmono : (n : ℚ) * dt ≤ ((n + 1 : ℕ) : ℚ) * dt := by
      apply mul_le_mul_of_nonneg_right _ hdt
      rw [hcast]
      linarith
    have h4' : 4 ≤ ((n + 1 : ℕ) : ℚ) * dt := by
      refine le_trans h4 (mul_le_mul_of_nonneg_right ?_ hdt)
      rw [hcast]
      have : (m : ℚ) ≤ (n : ℚ) := by exact_mod_cast hmn
      linarith
    have hstep : ctrlAfter false gate thr dt noise objZ (n + 1)
        = (tick false gate thr dt noise objZ (n + 1)
            (ctrlAfter false gate thr dt noise objZ n)).state := rfl
    rw [hstep, tick_window_state_noshake h4' h20]
    exact ih (lt_of_le_of_lt hmono h20)

/-- Witness for C4's amended constancy statement: with `dt = 1/2` and shake
off, the control state after window ticks 8 and 10 (elapsed times 4 and 5)
coincide. -/
theorem noshake_window_arm_constant_witness :
    ((0:ℚ) ≤ 1/2 ∧ (8:ℕ) ≤ 10 ∧ (4:ℚ) ≤ ((8:ℕ):ℚ) * (1/2) ∧ ((10:ℕ):ℚ) * (1/2) < 20)
    ∧ ctrlAfter false everyTick 0.04 (1/2) (fun _ _ => 0) (fun _ => 1) 10
        = ctrlAfter false everyTick 0.04 (1/2) (fun _ _ => 0) (fun _ => 1) 8 :=
  ⟨⟨by norm_num, by norm_num, by norm_num, by norm_num⟩,
    noshake_window_arm_constant everyTick 0.04 (1/2) (fun _ _ => 0) (fun _ => 1) 8 10
      (by norm_num) (by norm_num) (by norm_num) (by norm_num)⟩

set_option maxRecDepth 100000 in
/-- Counterexample to C4 as stated: with `dt = 1/2` and shake disabled, at
the first SHAKE_AND_VERIFY tick (step 8, elapsed time 4) the held arm target
is `lerp(grasp_qpos[:7], lift_qpos[:7], 1/2)` — the last LIFT_OBJECT write —
which is not `lift_qpos[:7]`. -/
theorem noshake_window_arm_not_lift :
    (ctrlAfter false everyTick 0.04 (1/2) (fun _ _ => 0) (fun _ => 1) 8).arm ≠ armOf lift_qpos := by
  with_unfolding_all decide

/-- C2: drop detection and success in the SHAKE_AND_VERIFY window, for any
check gate and threshold (motrix: every tick against 0.03; mujoco-warp:
every 100th tick against 0.04).  If step `m` is the first tick whose check
fires with the object strictly below the threshold, the run terminates with
status failure and `drop_time = m * dt`, the elapsed time of that check.  If
no check ever fires below the threshold, the run terminates with status
success and `drop_time = None` once elapsed time reaches 20.  The bound
`dt ≤ 1/60` makes the motrix render batching (`int((1/60)/dt)` physics steps
per frame) execute at least one step per outer iteration. -/
theorem drop_detection (shake record : Bool) (gate : ℕ → Bool) (thr dt : ℚ)
    (noise : ℕ → Fin 7 → ℚ) (objZ : ℕ → ℚ)
    (hdt : 0 < dt) (hrender : dt ≤ 1/60) :
    (∀ m : ℕ, 1 ≤ m → failsAt gate thr dt objZ m = true →
      (∀ k, 1 ≤ k → k < m → failsAt gate thr dt objZ k = false) →
      run shake record gate thr dt noise objZ
        = some ⟨.failure, some ((m : ℚ) * dt),
            terminalEvents record .failure (some ((m : ℚ) * dt))⟩)
    ∧ ((∀ k : ℕ, 1 ≤ k → failsAt gate thr dt objZ k = false) →
      run shake record gate thr dt noise objZ
        = some ⟨.success, none, terminalEvents record .success none⟩) := by
  constructor
  · intro m h1m hm hbefore
    obtain ⟨-, h20m, -, -⟩ := failsAt_eq_true.mp hm
    have hfuel : m < 1 + fuelFor dt := by
      have := lt_fuelFor hdt h20m
      omega
    refine runFrom_fail_eq (fuelFor dt) 1 h1m hfuel ?_ hm initCtrl
    intro k hk1 hkm
    refine ⟨hbefore k hk1 hkm, ?_⟩
    have hk : (k : ℚ) * dt < 20 := by
      have hle : (k : ℚ) ≤ (m : ℚ) := by exact_mod_cast hkm.le
      have := mul_le_mul_of_nonneg_right hle hdt.le
      linarith
    simp [passesAt, not_le.mpr hk]
  · intro hnofail
    have hPN : (20 : ℚ) ≤ ((20 * dt.den : ℕ) : ℚ) * dt := by
      have hnum : 1 ≤ dt.num := by
        have := Rat.num_pos.mpr hdt
        omega
      have hval : ((20 * dt.den : ℕ) : ℚ) * dt = 20 * (dt.num : ℚ) := by
        push_cast
        rw [mul_assoc, den_mul_self]
      rw [hval]
      have : (1 : ℚ) ≤ (dt.num : ℚ) := by exact_mod_cast hnum
      linarith
    have hex : ∃ n : ℕ, 20 ≤ (n : ℚ) * dt := ⟨20 * dt.den, hPN⟩
    set m := Nat.find hex with hmdef
    have hm : 20 ≤ (m : ℚ) * dt := Nat.find_spec hex
    have hmin : ∀ k, k < m → ¬ (20 : ℚ) ≤ (k : ℚ) * dt := fun k hk => Nat.find_min hex hk
    have h1m : 1 ≤ m := by
      rcases Nat.eq_zero_or_pos m with h0 | h1
      · rw [h0] at hm
        norm_num at hm
      · exact h1
    have hfuel : m < 1 + fuelFor dt := by
      have : m ≤ 20 * dt.den := Nat.find_le hPN
      have : fuelFor dt = 20 * dt.den + 1 := rfl
      omega
    refine runFrom_pass_eq (fuelFor dt) 1 h1m hfuel ?_ hm initCtrl
    intro k hk1 hkm
    exact ⟨hnofail k hk1, by simp [passesAt, hmin k hkm]⟩

/-- Witness for C2 (failure path) at `dt = 1/60`, constant object height 0
below threshold `0.03`, checked every tick: the first window tick is step
240 (elapsed time 4) and the run fails there. -/
theorem drop_detection_witness :
    ((0:ℚ) < 1/60 ∧ (1/60 : ℚ) ≤ 1/60 ∧ 1 ≤ 240
      ∧ failsAt everyTick 0.03 (1/60) (fun _ => 0) 240 = true)
    ∧ run false true everyTick 0.03 (1/60) (fun _ _ => 0) (fun _ => 0)
        = some ⟨.failure, some (((240 : ℕ) : ℚ) * (1/60)),
            terminalEvents true .failure (some (((240 : ℕ) : ℚ) * (1/60)))⟩ :=
  ⟨⟨by norm_num, le_refl _, by norm_num,
      failsAt_eq_true.mpr ⟨by push_cast; norm_num, by push_cast; norm_num, rfl, by norm_num⟩⟩,
    (drop_detection false true everyTick 0.03 (1/60) (fun _ _ => 0) (fun _ => 0)
        (by norm_num) (le_refl _)).1 240 (by norm_num)
      (failsAt_eq_true.mpr ⟨by push_cast; norm_num, by push_cast; norm_num, rfl, by norm_num⟩)
      (by
        intro k hk1 hkm
        have hd : decide ((4 : ℚ) ≤ (k : ℚ) * (1/60)) = false := by
          apply decide_eq_false
          have hk' : (k : ℚ) < 240 := by exact_mod_cast hkm
          intro hcon
          linarith
        unfold failsAt
        rw [hd, Bool.false_and, Bool.false_and, Bool.false_and])⟩

/-- C5: on both the failure path and the success path of the motrix script,
the terminal actions are: artifacts first (video, then result record — only
when recording), then `exit(0)`.  Any terminating run ends with exit code 0;
a failed grasp never produces a non-zero exit code. -/
theorem artifacts_then_exit_zero (shake record : Bool) (gate : ℕ → Bool) (thr dt : ℚ)
    (noise : ℕ → Fin 7 → ℚ) (objZ : ℕ → ℚ) (r : RunResult)
    (h : run shake record gate thr dt noise objZ = some r) :
    r.events = (if record then [Event.saveVideo, Event.saveResult r.status r.dropTime] else [])
        ++ [Event.exitProc 0] := by
  suffices H : ∀ fuel n s rr, runFrom shake record gate thr dt noise objZ fuel n s = some rr →
      rr.events = (if record then [Event.saveVideo, Event.saveResult rr.status rr.dropTime] else [])
          ++ [Event.exitProc 0] from H _ _ _ _ h
  intro fuel
  induction fuel with
  | zero =>
    intro n s rr hr
    simp [runFrom] at hr
  | succ fuel ih =>
    intro n s rr hr
    rw [runFrom] at hr
    cases htick : tick shake gate thr dt noise objZ n s with
    | cont s' =>
      rw [htick] at hr
      exact ih _ _ _ hr
    | failed t s' =>
      rw [htick] at hr
      injection hr with hr
      subst hr
      rfl
    | passed s' =>
      rw [htick] at hr
      injection hr with hr
      subst hr
      rfl

/-- Witness for C5: a concrete recorded run (constant object height 0,
threshold 0.03, `dt = 10`) fails at its first window tick, saves the video
and the failure record, and exits 0. -/
theorem artifacts_then_exit_zero_witness :
    (run false true everyTick 0.03 10 (fun _ _ => 0) (fun _ => 0)
        = some ⟨.failure, some 10,
            [Event.saveVideo, Event.saveResult .failure (some 10), Event.exitProc 0]⟩)
    ∧ [Event.saveVideo, Event.saveResult Status.failure (some (10:ℚ)), Event.exitProc 0]
        = (if true then [Event.saveVideo, Event.saveResult Status.failure (some (10:ℚ))] else [])
            ++ [Event.exitProc 0] :=
  ⟨by with_unfolding_all decide,
    artifacts_then_exit_zero false true everyTick 0.03 10 (fun _ _ => 0) (fun _ => 0)
      ⟨.failure, some 10, [Event.saveVideo, Event.saveResult .failure (some 10), Event.exitProc 0]⟩
      (by with_unfolding_all decide)⟩

/-- C10: the step counter starts at 0 and is incremented before the phase
lookup, so iteration `k` of every loop dispatches at elapsed time `k * dt`
with `k ≥ 1`: all dispatch times are positive (never exactly 0), and the
first arm target ever computed is `lerp(init, lift, dt)` — one timestep into
the interpolation, not the init pose itself (for a timestep `0 < dt < 1`,
which places the first tick in the INIT_TO_LIFT window). -/
theorem first_tick_target (shake : Bool) (gate : ℕ → Bool) (thr dt : ℚ)
    (noise : ℕ → Fin 7 → ℚ) (objZ : ℕ → ℚ) (hdt0 : 0 < dt) (hdt1 : dt < 1) :
    (∀ n : ℕ, 1 ≤ n → 0 < (n : ℚ) * dt)
    ∧ (∀ n : ℕ, ctrlAfter shake gate thr dt noise objZ (n + 1)
        = (tick shake gate thr dt noise objZ (n + 1)
            (ctrlAfter shake gate thr dt noise objZ n)).state)
    ∧ ((ctrlAfter shake gate thr dt noise objZ 1).arm
        = fun i => lerp (armOf init_qpos i) (armOf lift_qpos i) dt)
    ∧ (ctrlAfter shake gate thr dt noise objZ 1).arm ≠ armOf init_qpos := by
  have h0 : (0:ℚ) ≤ ((1:ℕ) : ℚ) * dt := by
    push_cast
    linarith
  have h1 : ((1:ℕ) : ℚ) * dt < 1 := by
    push_cast
    linarith
  have harm : (ctrlAfter shake gate thr dt noise objZ 1).arm
      = fun i => lerp (armOf init_qpos i) (armOf lift_qpos i) dt := by
    have hstep : ctrlAfter shake gate thr dt noise objZ 1
        = (tick shake gate thr dt noise objZ 1 initCtrl).state := rfl
    rw [hstep, tick_phase1 h0 h1]
    show (fun i => lerp (armOf init_qpos i) (armOf lift_qpos i) (((1:ℕ) : ℚ) * dt))
        = fun i => lerp (armOf init_qpos i) (armOf lift_qpos i) dt
    funext i
    norm_num
  refine ⟨?_, fun n => rfl, harm, ?_⟩
  · intro n hn
    have : (1:ℚ) ≤ (n : ℚ) := by exact_mod_cast hn
    nlinarith
  · intro hcontra
    rw [harm] at hcontra
    have h3 := congrFun hcontra 3
    simp only [lerp] at h3
    have hz : dt * (armOf lift_qpos 3 - armOf init_qpos 3) = 0 := by linarith
    rcases mul_eq_zero.mp hz with h | h
    · exact absurd h hdt0.ne'
    · have hne : armOf lift_qpos 3 - armOf init_qpos 3 ≠ 0 := by
        with_unfolding_all decide
      exact absurd h hne

/-- Witness for C10 at `dt = 1/2`. -/
theorem first_tick_target_witness :
    ((0:ℚ) < 1/2 ∧ (1/2 : ℚ) < 1)
    ∧ ((ctrlAfter false everyTick 0.04 (1/2) (fun _ _ => 0) (fun _ => 1) 1).arm
        = fun i => lerp (armOf init_qpos i) (armOf lift_qpos i) (1/2))
    ∧ (ctrlAfter false everyTick 0.04 (1/2) (fun _ _ => 0) (fun _ => 1) 1).arm ≠ armOf init_qpos :=
  ⟨⟨by norm_num, by norm_num⟩,
    (first_tick_target false everyTick 0.04 (1/2) (fun _ _ => 0) (fun _ => 1)
      (by norm_num) (by norm_num)).2.2.1,
    (first_tick_target false everyTick 0.04 (1/2) (fun _ _ => 0) (fun _ => 1)
      (by norm_num) (by norm_num)).2.2.2⟩

set_option maxRecDepth 400000 in
/-- C1 fails on the code: a filename produced by `generate_video_path` has
only 7 underscore-separated parts (the dt field itself contains the
underscore), so `parse_result_filename`'s new-pattern branch — which demands
`len(parts) >= 8` — never matches it, and parsing falls through to the
legacy fallback with `mjx = False, dt = 0.002`.  Evaluated here at the
failing inputs: `mjx = True` is parsed back as `False`, and `dt = 0.01` is
parsed back as `0.002`.  Engine and object are recovered. -/
theorem roundtrip_loses_mjx_and_dt :
    parse_result_filename
        (generate_video_path "mujoco".toList "cube".toList false true 0.002 "output".toList)
      = some ⟨"mujoco".toList, "slip".toList, "cube".toList, false, 0.002⟩
    ∧ parse_result_filename
        (generate_video_path "mujoco".toList "cube".toList true false 0.01 "output".toList)
      = some ⟨"mujoco".toList, "shake".toList, "cube".toList, false, 0.002⟩ := by
  with_unfolding_all decide

/-- C9: `parse_result_filename` is total — it always returns either a record
with exactly the keys engine/task/object/mjx/dt, or `None` (it cannot raise:
the one fallible operation, `float(...)`, is caught).  It returns `None`
exactly when the filename stem has fewer than 4 underscore-separated parts or
its second part is not `"grasp"`; and when an 8-or-more-part name's dt field
fails to parse as a float, the result is the legacy record
`(mjx = False, dt = 0.002)` rather than an exception. -/
theorem parse_result_filename_total (fn : Chars) :
    (parse_result_filename fn = none ↔
      ¬(4 ≤ (splitChar '_' (pathStem fn)).length
        ∧ (splitChar '_' (pathStem fn)).get? 1 = some "grasp".toList))
    ∧ (8 ≤ (splitChar '_' (pathStem fn)).length →
       (splitChar '_' (pathStem fn)).get? 1 = some "grasp".toList →
       pyFloat (replaceAll ['_'] ['.']
         (replaceAll "dt".toList [] ((splitChar '_' (pathStem fn)).getD 6 []))) = none →
       parse_result_filename fn
         = some ⟨(splitChar '_' (pathStem fn)).getD 0 [],
             (splitChar '_' (pathStem fn)).getD 2 [],
             (splitChar '_' (pathStem fn)).getD 3 [], false, 0.002⟩) := by
  have h48 : ∀ L : List Chars, 8 ≤ L.length → 4 ≤ L.length := fun L h => by omega
  by_cases h8 : 8 ≤ (splitChar '_' (pathStem fn)).length
      ∧ (splitChar '_' (pathStem fn)).get? 1 = some "grasp".toList
  · cases hpf : pyFloat (replaceAll ['_'] ['.']
        (replaceAll "dt".toList [] ((splitChar '_' (pathStem fn)).getD 6 []))) with
    | some d =>
      have hval : parse_result_filename fn
          = some ⟨(splitChar '_' (pathStem fn)).getD 0 [],
              (splitChar '_' (pathStem fn)).getD 2 [],
              (splitChar '_' (pathStem fn)).getD 3 [],
              decide (replaceAll "mjx".toList []
                  ((splitChar '_' (pathStem fn)).getD 5 []) = "true".toList), d⟩ := by
        simp only [parse_result_filename]
        rw [if_pos h8, hpf]
      rw [hval]
      refine ⟨?_, ?_⟩
      · exact ⟨fun hc => absurd hc (Option.some_ne_none _),
          fun hc => absurd ⟨h48 _ h8.1, h8.2⟩ hc⟩
      · intro _ _ hnone
        exact absurd hnone (Option.some_ne_none _)
    | none =>
      have h4 : 4 ≤ (splitChar '_' (pathStem fn)).length
          ∧ (splitChar '_' (pathStem fn)).get? 1 = some "grasp".toList :=
        ⟨h48 _ h8.1, h8.2⟩
      have hval : parse_result_filename fn
          = some ⟨(splitChar '_' (pathStem fn)).getD 0 [],
              (splitChar '_' (pathStem fn)).getD 2 [],
              (splitChar '_' (pathStem fn)).getD 3 [], false, 0.002⟩ := by
        simp only [parse_result_filename]
        rw [if_pos h8, hpf, if_pos h4]
      rw [hval]
      exact ⟨⟨fun hc => absurd hc (Option.some_ne_none _), fun hc => absurd h4 hc⟩,
        fun _ _ _ => rfl⟩
  · have hval : parse_result_filename fn
        = if 4 ≤ (splitChar '_' (pathStem fn)).length
            ∧ (splitChar '_' (pathStem fn)).get? 1 = some "grasp".toList then
            some ⟨(splitChar '_' (pathStem fn)).getD 0 [],
              (splitChar '_' (pathStem fn)).getD 2 [],
              (splitChar '_' (pathStem fn)).getD 3 [], false, 0.002⟩
          else none := by
      simp only [parse_result_filename]
      rw [if_neg h8]
    rw [hval]
    by_cases h4 : 4 ≤ (splitChar '_' (pathStem fn)).length
        ∧ (splitChar '_' (pathStem fn)).get? 1 = some "grasp".toList
    · rw [if_pos h4]
      refine ⟨⟨fun hc => absurd hc (Option.some_ne_none _), fun hc => absurd h4 hc⟩, ?_⟩
      intro h8l hg _
      exact absurd ⟨h8l, hg⟩ h8
    · rw [if_neg h4]
      refine ⟨⟨fun _ => h4, fun _ => rfl⟩, ?_⟩
      intro h8l hg _
      exact absurd ⟨h48 _ h8l, hg⟩ h4

/-- Witness for C9's fall-through clause: an 8-part grasp filename whose dt
field is not a float parses to the legacy record instead of raising. -/
theorem parse_result_filename_total_witness :
    (8 ≤ (splitChar '_' (pathStem "e_grasp_shake_cube_q_mjxtrue_dtabc_zz.json".toList)).length
      ∧ (splitChar '_' (pathStem "e_grasp_shake_cube_q_mjxtrue_dtabc_zz.json".toList)).get? 1
          = some "grasp".toList
      ∧ pyFloat (replaceAll ['_'] ['.'] (replaceAll "dt".toList []
          ((splitChar '_' (pathStem "e_grasp_shake_cube_q_mjxtrue_dtabc_zz.json".toList)).getD 6 [])))
          = none)
    ∧ parse_result_filename "e_grasp_shake_cube_q_mjxtrue_dtabc_zz.json".toList
        = some ⟨"e".toList, "shake".toList, "cube".toList, false, 0.002⟩ :=
  ⟨⟨by with_unfolding_all decide, by with_unfolding_all decide, by with_unfolding_all decide⟩,
    (parse_result_filename_total "e_grasp_shake_cube_q_mjxtrue_dtabc_zz.json".toList).2
      (by with_unfolding_all decide) (by with_unfolding_all decide)
      (by with_unfolding_all decide)⟩

lemma isPrefixOf_self (l : Chars) : l.isPrefixOf l = true := by
  induction l with
  | nil => rfl
  | cons c r ih => simp [List.isPrefixOf, ih]

lemma containsSub_append_left (p a : Chars) {b : Chars}
    (h : containsSub p b = true) : containsSub p (a ++ b) = true := by
  induction a with
  | nil => simpa using h
  | cons c r ih =>
    show (p.isPrefixOf (c :: (r ++ b)) || containsSub p (r ++ b)) = true
    rw [ih]
    simp

lemma containsSub_self (p : Chars) : containsSub p p = true := by
  cases p with
  | nil => rfl
  | cons c r =>
    show ((c :: r).isPrefixOf (c :: r) || containsSub (c :: r) r) = true
    rw [isPrefixOf_self]
    simp

lemma containsSub_append_self (p a : Chars) : containsSub p (a ++ p) = true :=
  containsSub_append_left p a (containsSub_self p)

lemma length_flatMap_const {α β : Type} (l : List α) (f : α → List β) (k : ℕ)
    (h : ∀ a ∈ l, (f a).length = k) : (l.flatMap f).length = l.length * k := by
  induction l with
  | nil => simp
  | cons a l ih =>
    simp only [List.flatMap_cons, List.length_append, List.length_cons]
    rw [h a (by simp), ih (fun b hb => h b (by simp [hb]))]
    ring

lemma allConfigs_length (engines objects : List Chars) (dts : List ℚ) :
    (allConfigs engines objects dts).length
      = engines.length * objects.length * dts.length := by
  unfold allConfigs
  rw [length_flatMap_const _ _ (objects.length * dts.length), mul_assoc]
  intro a _
  rw [length_flatMap_const _ _ dts.length]
  intro b _
  simp

/-- C8: a subprocess timeout is caught, not propagated — `run_single_test`
returns `(False, partial output + timeout marker)` and `run_all_tests`
records the distinct status `TIMEOUT` for it; any other exception is caught
and converted to a failed result whose output carries the exception text; and
the batch loop invokes each configuration exactly once (no retry), its result
list being the (engine × object × dt) product in loop order. -/
theorem batch_runner_error_handling (out err msg : Chars)
    (engines objects : List Chars) (dts : List ℚ) (invoke : TestConfig → SubprocOutcome) :
    ((run_single_test (.timeoutExpired out err)).1 = false
      ∧ runStatus (run_single_test (.timeoutExpired out err)).1
          (run_single_test (.timeoutExpired out err)).2 = "TIMEOUT".toList)
    ∧ ((run_single_test (.exc msg)).1 = false
      ∧ containsSub msg (run_single_test (.exc msg)).2 = true)
    ∧ ("TIMEOUT".toList ≠ "PASSED".toList ∧ "TIMEOUT".toList ≠ "FAILED".toList)
    ∧ (run_all_tests engines objects dts invoke).length
        = engines.length * objects.length * dts.length
    ∧ (∀ p ∈ run_all_tests engines objects dts invoke,
        (p.2.success, p.2.output) = run_single_test (invoke p.1)
        ∧ p.2.status = runStatus p.2.success p.2.output) := by
  refine ⟨⟨rfl, ?_⟩, ⟨rfl, ?_⟩, ⟨by decide, by decide⟩, ?_, ?_⟩
  · have hmarker : containsSub "TIMEOUT".toList
        "\n[TIMEOUT] Test timed out after 60 seconds".toList = true := by decide
    have hcontains : containsSub "TIMEOUT".toList
        (out ++ err ++ "\n[TIMEOUT] Test timed out after 60 seconds".toList) = true :=
      containsSub_append_left _ (out ++ err) hmarker
    show runStatus false (out ++ err ++ "\n[TIMEOUT] Test timed out after 60 seconds".toList)
        = "TIMEOUT".toList
    rw [runStatus, if_pos]
    rw [hcontains]
  · exact containsSub_append_self msg "Error running test: ".toList
  · rw [run_all_tests, List.length_map, allConfigs_length]
  · intro p hp
    obtain ⟨c, hc, rfl⟩ := List.mem_map.mp hp
    exact ⟨rfl, rfl⟩

/-- Witness for C8 on a concrete one-configuration batch whose subprocess
times out. -/
theorem batch_runner_error_handling_witness :
    ((run_single_test (.timeoutExpired "a".toList "b".toList)).1 = false
      ∧ runStatus (run_single_test (.timeoutExpired "a".toList "b".toList)).1
          (run_single_test (.timeoutExpired "a".toList "b".toList)).2 = "TIMEOUT".toList)
    ∧ ((run_single_test (.exc "boom".toList)).1 = false
      ∧ containsSub "boom".toList (run_single_test (.exc "boom".toList)).2 = true)
    ∧ ("TIMEOUT".toList ≠ "PASSED".toList ∧ "TIMEOUT".toList ≠ "FAILED".toList)
    ∧ (run_all_tests ["motrix".toList] ["cube".toList] [1]
        (fun _ => .timeoutExpired [] [])).length = 1 * 1 * 1
    ∧ (∀ p ∈ run_all_tests ["motrix".toList] ["cube".toList] [1]
          (fun _ => .timeoutExpired [] []),
        (p.2.success, p.2.output) = run_single_test (.timeoutExpired [] [])
        ∧ p.2.status = runStatus p.2.success p.2.output) :=
  batch_runner_error_handling "a".toList "b".toList "boom".toList
    ["motrix".toList] ["cube".toList] [1] (fun _ => .timeoutExpired [] [])
